import Mathlib

/-!
Shallow embedding of the `account_socket` service (src/): the durable store
(`database.rs`), the Redis cache gateway (`cache.rs`), the WebSocket
subscription/broadcast layer (`websocket.rs`) and the ingestion processor
(`processor.rs`).  External effects (SQL, Redis, the network) are modelled
as explicit state (association lists) with injected failure flags; machine
integers are `Nat`/`Int` with the `as i64` cast made explicit; opaque JSON
documents and timestamps are modelled as `String`/`Nat` tokens.
-/

namespace AccountSocket

/-- A persisted account update row (struct `AccountUpdate` in `database.rs`):
`id`/`slot`/`lamports` are `i64` (modelled as `Int`), `data_json` is an opaque
JSON document (modelled as an opaque `String`), `created_at` a timestamp
(modelled as an opaque `Nat`). -/
structure AccountUpdate where
  id : Int
  pubkey : String
  slot : Int
  account_type : String
  owner : String
  lamports : Int
  data_json : String
  created_at : Nat
deriving DecidableEq, Repr

/-- A candidate row before insertion (struct `NewAccountUpdate` in
`database.rs`): `slot` and `lamports` are `u64` (modelled as `Nat`). -/
structure NewAccountUpdate where
  pubkey : String
  slot : Nat
  account_type : String
  owner : String
  lamports : Nat
  data_json : String
deriving DecidableEq, Repr

/-- Rust's `v as i64` on a `u64` value `v < 2^64`: two's-complement
reinterpretation (`database.rs` lines 50-51). -/
def u64ToI64 (v : Nat) : Int :=
  if v < 2 ^ 63 then (v : Int) else (v : Int) - 2 ^ 64

/-- The durable store: the `account_updates` table as the list of inserted
rows in insertion order, plus the auto-increment counter for `id`. -/
structure DbState where
  rows : List AccountUpdate
  nextId : Int
deriving DecidableEq, Repr

/-- Embeds `Database::insert_account_update` (`database.rs` lines 43-95): converts
`slot` and `lamports` with `as i64`, appends a row with the auto-assigned
`id` and the persistence-time timestamp, and returns the stored row. -/
def insert_account_update (db : DbState) (update : NewAccountUpdate)
    (created_at : Nat) : DbState × AccountUpdate :=
  let slot_i64 := u64ToI64 update.slot
  let lamports_i64 := u64ToI64 update.lamports
  let row : AccountUpdate :=
    { id := db.nextId
      pubkey := update.pubkey
      slot := slot_i64
      account_type := update.account_type
      owner := update.owner
      lamports := lamports_i64
      data_json := update.data_json
      created_at := created_at }
  ({ rows := db.rows ++ [row], nextId := db.nextId + 1 }, row)

/-- Evaluation of `ORDER BY slot DESC LIMIT 1` over a list of rows: the first row of
maximal `slot` (a later row replaces the current best only when its slot is
strictly greater). -/
def maxBySlot : List AccountUpdate → Option AccountUpdate
  | [] => none
  | r :: rs =>
    match maxBySlot rs with
    | none => some r
    | some b => if b.slot > r.slot then some b else some r

/-- Embeds `Database::get_latest_account_state` (`database.rs` lines 97-142):
`SELECT ... WHERE pubkey = ?1 ORDER BY slot DESC LIMIT 1`. -/
def get_latest_account_state (db : DbState) (pubkey : String) :
    Option AccountUpdate :=
  maxBySlot (db.rows.filter (fun r => r.pubkey = pubkey))

theorem maxBySlot_eq_none {rs : List AccountUpdate} :
    maxBySlot rs = none ↔ rs = [] := by
  cases rs with
  | nil => simp [maxBySlot]
  | cons r rs =>
    simp only [maxBySlot]
    cases maxBySlot rs with
    | none => simp
    | some b =>
      constructor
      · intro h
        by_cases hb : b.slot > r.slot <;> simp [hb] at h
      · intro h
        exact absurd h (List.cons_ne_nil r rs)

theorem maxBySlot_mem {rs : List AccountUpdate} {r : AccountUpdate}
    (h : maxBySlot rs = some r) : r ∈ rs := by
  induction rs with
  | nil => simp [maxBySlot] at h
  | cons a as ih =>
    simp only [maxBySlot] at h
    cases hm : maxBySlot as with
    | none =>
      rw [hm] at h
      simp at h
      simp [h]
    | some b =>
      rw [hm] at h
      by_cases hb : b.slot > a.slot
      · simp [hb] at h
        subst h
        exact List.mem_cons_of_mem a (ih hm)
      · simp [hb] at h
        simp [h]

theorem maxBySlot_ge {rs : List AccountUpdate} {r : AccountUpdate}
    (h : maxBySlot rs = some r) :
    ∀ x ∈ rs, x.slot ≤ r.slot := by
  induction rs generalizing r with
  | nil => simp
  | cons a as ih =>
    intro x hx
    simp only [maxBySlot] at h
    cases hm : maxBySlot as with
    | none =>
      rw [hm] at h
      simp at h
      rcases List.mem_cons.mp hx with hxa | hxs
      · subst h; subst hxa; exact le_refl _
      · exact absurd (maxBySlot_eq_none.mp hm ▸ hxs) (List.not_mem_nil x)
    | some b =>
      rw [hm] at h
      by_cases hb : b.slot > a.slot
      · simp [hb] at h
        subst h
        rcases List.mem_cons.mp hx with hxa | hxs
        · subst hxa; exact le_of_lt hb
        · exact ih hm x hxs
      · simp [hb] at h
        subst h
        rcases List.mem_cons.mp hx with hxa | hxs
        · subst hxa; exact le_refl _
        · exact le_trans (ih hm x hxs) (le_of_not_lt hb)

/-- First-match lookup in an association list (the read discipline of both
`HashMap` maps and the Redis key space, whose keys are unique). -/
def assocLookup {α β : Type} [DecidableEq α] : List (α × β) → α → Option β
  | [], _ => none
  | (k, v) :: rest, a => if k = a then some v else assocLookup rest a

/-- First-match overwrite-or-append in an association list (Redis `SET`). -/
def assocSet {α β : Type} [DecidableEq α] : List (α × β) → α → β → List (α × β)
  | [], a, b => [(a, b)]
  | (k, v) :: rest, a, b =>
    if k = a then (k, b) :: rest else (k, v) :: assocSet rest a b

/-- The Redis cache gateway (`cache.rs`): the key space under the
`account:<pubkey>` prefixing (modelled by keying directly on the pubkey),
with injected failure flags for the fallible connection on reads and
writes. -/
structure CacheState where
  entries : List (String × AccountUpdate)
  getFails : Bool
  setFails : Bool
deriving DecidableEq, Repr

/-- Embeds `RedisCache::get_account` (`cache.rs` lines 53-88): a connection or
deserialization failure is an `Err`; otherwise the entry for the key, or
`None` when absent. -/
def cache_get_account (c : CacheState) (pubkey : String) :
    Except Unit (Option AccountUpdate) :=
  if c.getFails then Except.error () else Except.ok (assocLookup c.entries pubkey)

/-- Embeds `RedisCache::set_account` (`cache.rs` lines 25-51): a connection or
serialization failure is an `Err` leaving the cache untouched; otherwise
`SET ... EX 3600` stores the row under the key. -/
def cache_set_account (c : CacheState) (pubkey : String) (account : AccountUpdate) :
    Except Unit Unit × CacheState :=
  if c.setFails then (Except.error (), c)
  else (Except.ok (), { c with entries := assocSet c.entries pubkey account })

/-- Client identifiers (`type ClientId = u64` in `websocket.rs`). -/
abbrev ClientId := Nat

/-- The subscription index (`websocket.rs` field `subscriptions`):
`HashMap<String, Vec<ClientId>>` as an association list from pubkey to the
subscriber vector (a list, so it can hold duplicates, exactly like `Vec`). -/
abbrev Subs := List (String × List ClientId)

/-- The subscriber vector currently indexed for a key (empty when the key is
absent); `subscribersOf` in the spec's vocabulary. -/
def subscribersOf (subs : Subs) (pubkey : String) : List ClientId :=
  match assocLookup subs pubkey with
  | some l => l
  | none => []

/-- The subscribe branch of `handle_subscription` restricted to the index
mutation (`websocket.rs` lines 193-199):
`subs.entry(pubkey).or_insert_with(Vec::new).push(client_id)` — an
unconditional push onto the vector for the key. -/
def subscribe_index : Subs → String → ClientId → Subs
  | [], pubkey, c => [(pubkey, [c])]
  | (k, l) :: rest, pubkey, c =>
    if k = pubkey then (k, l ++ [c]) :: rest
    else (k, l) :: subscribe_index rest pubkey c

/-- The unsubscribe branch of `handle_subscription` restricted to the index
mutation (`websocket.rs` lines 236-245): if the key is present, retain the
ids different from the client and drop the entry when the retained vector is
empty; absent keys are untouched. -/
def unsubscribe_index : Subs → String → ClientId → Subs
  | [], _, _ => []
  | (k, l) :: rest, pubkey, c =>
    if k = pubkey then
      (let retained := l.filter (fun id => id ≠ c)
       if retained.isEmpty then rest else (k, retained) :: rest)
    else (k, l) :: unsubscribe_index rest pubkey c

/-- The subscription sweep of `cleanup_client` (`websocket.rs` lines
331-354): retain ids different from the client in every entry, then retain
only non-empty entries. -/
def removeSession (subs : Subs) (c : ClientId) : Subs :=
  (subs.map (fun p => (p.1, p.2.filter (fun id => id ≠ c)))).filter
    (fun p => ¬ p.2.isEmpty)

/-- The outbound message enqueued to a session's channel
(struct `AccountUpdateMessage` in `websocket.rs`). -/
structure AccountUpdateMessage where
  pubkey : String
  account : AccountUpdate
  source : String
deriving DecidableEq, Repr

/-- An inbound subscription request (struct `SubscriptionRequest` in
`websocket.rs`). -/
structure SubscriptionRequest where
  action : String
  pubkey : String
deriving DecidableEq, Repr

/-- A session's outbound delivery channel (the per-client
`tokio::sync::broadcast` channel of `websocket.rs`): the FIFO of envelopes
successfully enqueued, plus whether a receiver is still attached
(`broadcast::Sender::send` fails exactly when no receiver is alive). -/
structure Channel where
  queue : List AccountUpdateMessage
  receiverAlive : Bool
deriving DecidableEq, Repr

/-- Embeds `tx.send(msg)`: append to the FIFO and report success when the receiver
is alive; otherwise fail leaving the channel untouched. -/
def channelSend (ch : Channel) (msg : AccountUpdateMessage) : Channel × Bool :=
  if ch.receiverAlive then ({ ch with queue := ch.queue ++ [msg] }, true)
  else (ch, false)

/-- The connection registry (`websocket.rs` field `clients`):
`HashMap<ClientId, broadcast::Sender<_>>` as an association list. -/
abbrev Clients := List (ClientId × Channel)

/-- Replace the channel stored for an id (the effect of sending through the
`Sender` held in the map); ids not present are untouched. -/
def updateClient : Clients → ClientId → Channel → Clients
  | [], _, _ => []
  | p :: rest, c, ch =>
    if p.1 = c then (p.1, ch) :: updateClient rest c ch
    else p :: updateClient rest c ch

/-- The shared mutable state of `WebSocketServer`: the connection registry
and the subscription index (the database and cache handles are threaded
separately). -/
structure ServerState where
  clients : Clients
  subscriptions : Subs
deriving DecidableEq, Repr

/-- The per-subscriber loop of `broadcast_account_update` (`websocket.rs`
lines 277-288): for each id in the subscriber vector, look its channel up in
the registry; if present attempt the send (a failed send is logged and
skipped), if absent skip. -/
def broadcastLoop (cs : Clients) (msg : AccountUpdateMessage) :
    List ClientId → Clients
  | [] => cs
  | c :: rest =>
    match assocLookup cs c with
    | some ch => broadcastLoop (updateClient cs c (channelSend ch msg).1) msg rest
    | none => broadcastLoop cs msg rest

/-- Embeds `WebSocketServer::broadcast_account_update` (`websocket.rs` lines
257-290): read the subscriber vector for the key (absent key: nothing), and
enqueue the `source = "realtime"` envelope to each subscriber's channel,
skipping absent channels and failed sends. -/
def broadcast_account_update (st : ServerState) (pubkey : String)
    (account : AccountUpdate) : ServerState :=
  match assocLookup st.subscriptions pubkey with
  | none => st
  | some client_ids =>
    let msg : AccountUpdateMessage :=
      { pubkey := pubkey, account := account, source := "realtime" }
    { st with clients := broadcastLoop st.clients msg client_ids }

/-- A sequence of broadcasts for one key, in order. -/
def broadcastMany (st : ServerState) (pubkey : String) :
    List AccountUpdate → ServerState
  | [] => st
  | u :: us => broadcastMany (broadcast_account_update st pubkey u) pubkey us

/-- Embeds `WebSocketServer::cleanup_client` (`websocket.rs` lines 316-357): remove
the client from the registry, then remove it from every subscriber vector
and drop the vectors left empty. -/
def cleanup_client (st : ServerState) (c : ClientId) : ServerState :=
  { clients := st.clients.filter (fun p => p.1 ≠ c)
    subscriptions := removeSession st.subscriptions c }

/-- The handles `get_account_data` reads through: the cache gateway and the
durable store, the latter with an injected read-failure flag (a failed
`sqlx` query is an `Err`). -/
structure ResolverWorld where
  cache : CacheState
  db : DbState
  dbReadFails : Bool
deriving DecidableEq, Repr

/-- Embeds `Database::get_latest_account_state` as seen by callers: `Err` on a
connection/query failure, otherwise the latest row, if any. -/
def db_get_latest (w : ResolverWorld) (pubkey : String) :
    Except Unit (Option AccountUpdate) :=
  if w.dbReadFails then Except.error ()
  else Except.ok (get_latest_account_state w.db pubkey)

/-- Embeds `WebSocketServer::get_account_data` (`websocket.rs` lines 292-314), the
cache-aside resolver: `if let Ok(Some(account)) = cache.get_account` return
`(account, "cache")`; otherwise `if let Ok(Some(account)) =
database.get_latest_account_state` write the row back to the cache (a
failure there only logs a warning) and return `(account, "database")`;
otherwise `None`. -/
def get_account_data (w : ResolverWorld) (pubkey : String) :
    Option (AccountUpdate × String) × ResolverWorld :=
  match cache_get_account w.cache pubkey with
  | Except.ok (some account) => (some (account, "cache"), w)
  | _ =>
    match db_get_latest w pubkey with
    | Except.ok (some account) =>
      let setResult := cache_set_account w.cache pubkey account
      (some (account, "database"), { w with cache := setResult.2 })
    | _ => (none, w)

/-- The full per-session view: the shared `WebSocketServer` maps plus the
gateway handles the resolver reads through. -/
structure SessionState where
  server : ServerState
  resolver : ResolverWorld
deriving DecidableEq, Repr

/-- Embeds `WebSocketServer::handle_subscription` (`websocket.rs` lines 184-255).
On `"subscribe"`: push the client onto the key's subscriber vector, then
resolve the current state; when a state is found, build the envelope and
send it to this client's own channel only (an absent channel or failed send
is only logged). On `"unsubscribe"`: remove the client from the key's
vector, pruning it when empty. Unknown actions are logged and ignored. -/
def handle_subscription (st : SessionState) (client_id : ClientId)
    (request : SubscriptionRequest) : SessionState :=
  if request.action = "subscribe" then
    let subs' := subscribe_index st.server.subscriptions request.pubkey client_id
    let resolved := get_account_data st.resolver request.pubkey
    match resolved.1 with
    | some found =>
      let message : AccountUpdateMessage :=
        { pubkey := request.pubkey, account := found.1, source := found.2 }
      let clients' :=
        match assocLookup st.server.clients client_id with
        | some tx => updateClient st.server.clients client_id (channelSend tx message).1
        | none => st.server.clients
      { server := { clients := clients', subscriptions := subs' }
        resolver := resolved.2 }
    | none =>
      { server := { st.server with subscriptions := subs' }
        resolver := resolved.2 }
  else if request.action = "unsubscribe" then
    { st with server :=
        { st.server with subscriptions :=
            unsubscribe_index st.server.subscriptions request.pubkey client_id } }
  else st

/-- The decoded account variants of the external decoder
(`MeteoraDammV2Account` in `processor.rs`); each payload is an opaque
document. -/
inductive MeteoraDammV2Account where
  | Pool (data : String)
  | Position (data : String)
  | Config (data : String)
  | ClaimFeeOperator (data : String)
  | TokenBadge (data : String)
  | Vesting (data : String)
deriving DecidableEq, Repr

/-- The exhaustive variant match of `process` (`processor.rs` lines 56-90):
each decoded variant maps to its tag string and the serialization of its
payload (serialization of an opaque document modelled as the document
itself). -/
def classify : MeteoraDammV2Account → String × String
  | MeteoraDammV2Account.Pool d => ("Pool", d)
  | MeteoraDammV2Account.Position d => ("Position", d)
  | MeteoraDammV2Account.Config d => ("Config", d)
  | MeteoraDammV2Account.ClaimFeeOperator d => ("ClaimFeeOperator", d)
  | MeteoraDammV2Account.TokenBadge d => ("TokenBadge", d)
  | MeteoraDammV2Account.Vesting d => ("Vesting", d)

/-- The account metadata delivered by the pipeline (`metadata` in
`process`). -/
structure AccountMetadata where
  pubkey : String
  slot : Nat
deriving DecidableEq, Repr

/-- The raw Solana account delivered alongside (`solana_account` in
`process`). -/
structure SolanaAccount where
  owner : String
  lamports : Nat
deriving DecidableEq, Repr

/-- The shared state `process` runs against (`PROCESSOR_STATE`): the store
(with an injected insert-failure flag), the cache and the WebSocket server,
plus the persistence-time clock. -/
structure IngestWorld where
  db : DbState
  dbInsertFails : Bool
  cache : CacheState
  server : ServerState
  now : Nat
deriving DecidableEq, Repr

/-- Which of the pipeline stages ran for one update. -/
structure ProcessTrace where
  insertOk : Bool
  cacheSetCalled : Bool
  broadcastCalled : Bool
deriving DecidableEq, Repr

/-- Embeds `Database::insert_account_update` as seen by callers: `Err` on a
connection/constraint failure (the store is untouched), otherwise the new
store state and the row it returned. -/
def db_insert (w : IngestWorld) (update : NewAccountUpdate) :
    Except Unit (DbState × AccountUpdate) :=
  if w.dbInsertFails then Except.error ()
  else Except.ok (insert_account_update w.db update w.now)

/-- Embeds `MeteoraDammV2AccountProcessor::process` (`processor.rs` lines 35-152):
classify the decoded variant, build the `NewAccountUpdate`, insert it; on
`Err` only log (no cache write, no broadcast); on `Ok` call
`cache.set_account` (a failure only logs a warning) and then
`broadcast_account_update` unconditionally. -/
def process (w : IngestWorld) (metadata : AccountMetadata)
    (decoded : MeteoraDammV2Account) (solana_account : SolanaAccount) :
    IngestWorld × ProcessTrace :=
  let classified := classify decoded
  let new_account_update : NewAccountUpdate :=
    { pubkey := metadata.pubkey
      slot := metadata.slot
      account_type := classified.1
      owner := solana_account.owner
      lamports := solana_account.lamports
      data_json := classified.2 }
  match db_insert w new_account_update with
  | Except.ok inserted =>
    let setResult := cache_set_account w.cache metadata.pubkey inserted.2
    let server' := broadcast_account_update w.server metadata.pubkey inserted.2
    ({ w with db := inserted.1, cache := setResult.2, server := server' },
     { insertOk := true, cacheSetCalled := true, broadcastCalled := true })
  | Except.error _ =>
    (w, { insertOk := false, cacheSetCalled := false, broadcastCalled := false })

/-! ### Association-list helper lemmas -/

theorem assocLookup_mem {α β : Type} [DecidableEq α] {l : List (α × β)} {a : α}
    {b : β} (h : assocLookup l a = some b) : (a, b) ∈ l := by
  induction l with
  | nil => simp [assocLookup] at h
  | cons p rest ih =>
    obtain ⟨k, v⟩ := p
    simp only [assocLookup] at h
    by_cases hk : k = a
    · simp [hk] at h
      simp [hk, h]
    · simp [hk] at h
      exact List.mem_cons_of_mem _ (ih h)

theorem assocLookup_eq_none_of_not_mem {α β : Type} [DecidableEq α]
    {l : List (α × β)} {a : α} (h : a ∉ l.map Prod.fst) :
    assocLookup l a = none := by
  induction l with
  | nil => simp [assocLookup]
  | cons p rest ih =>
    simp only [List.map_cons, List.mem_cons] at h
    push_neg at h
    simp only [assocLookup]
    rw [if_neg (fun he => h.1 he.symm)]
    exact ih h.2

/-! ### Subscription-index lemmas -/

theorem subscribersOf_subscribe_index (subs : Subs) (k : String) (c : ClientId) :
    subscribersOf (subscribe_index subs k c) k = subscribersOf subs k ++ [c] := by
  induction subs with
  | nil => simp [subscribe_index, subscribersOf, assocLookup]
  | cons p rest ih =>
    obtain ⟨k', l⟩ := p
    by_cases hk : k' = k
    · simp [subscribe_index, subscribersOf, assocLookup, hk]
    · simp only [subscribe_index, if_neg hk, subscribersOf, assocLookup]
      exact ih

/-- C1: subscribing twice is not idempotent — from the empty index, two
`subscribe("P", 1)` calls leave client 1 in the subscriber vector twice, and
the vector's size differs from the one-call vector's size, refuting the
claimed idempotence at this concrete input. -/
theorem subscribe_twice_not_idempotent :
    ¬ ((subscribersOf
          (subscribe_index (subscribe_index [] "P" 1) "P" 1) "P").length =
        (subscribersOf (subscribe_index [] "P" 1) "P").length ∧
       (subscribersOf
          (subscribe_index (subscribe_index [] "P" 1) "P" 1) "P").count 1 = 1) := by
  decide

/-- C1 (amended): each `subscribe(key, s)` call pushes `s` onto the key's
subscriber vector unconditionally, so a second call appends `s` again: the
vector after two calls is the one-call vector extended by `s`, one longer,
with one more occurrence of `s`. -/
theorem subscribe_twice_appends (subs : Subs) (k : String) (c : ClientId) :
    subscribersOf (subscribe_index (subscribe_index subs k c) k c) k
      = subscribersOf subs k ++ [c, c] ∧
    (subscribersOf (subscribe_index (subscribe_index subs k c) k c) k).length
      = (subscribersOf (subscribe_index subs k c) k).length + 1 ∧
    (subscribersOf (subscribe_index (subscribe_index subs k c) k c) k).count c
      = (subscribersOf (subscribe_index subs k c) k).count c + 1 := by
  have h1 := subscribersOf_subscribe_index subs k c
  have h2 := subscribersOf_subscribe_index (subscribe_index subs k c) k c
  rw [h2, h1]
  refine ⟨by simp, by simp, ?_⟩
  simp [List.count_append]

/-- C2: the ingestion pipeline's failure isolation — when the store insert
fails, the trace records no cache write and no broadcast and the whole world
is unchanged; when it succeeds, the cache write is attempted and the
broadcast runs, whatever the cache write's outcome (the success conjunct
holds for every world, in particular for both values of
`w.cache.setFails`). -/
theorem process_failure_isolation (w : IngestWorld) (metadata : AccountMetadata)
    (decoded : MeteoraDammV2Account) (solana_account : SolanaAccount) :
    (w.dbInsertFails = true →
      process w metadata decoded solana_account =
        (w, { insertOk := false, cacheSetCalled := false,
              broadcastCalled := false })) ∧
    (w.dbInsertFails = false →
      (process w metadata decoded solana_account).2 =
        { insertOk := true, cacheSetCalled := true, broadcastCalled := true }) := by
  constructor
  · intro h
    simp [process, db_insert, h]
  · intro h
    simp [process, db_insert, h]

/-- C10: `insert_account_update` stores `slot` and `lamports` through Rust's
`as i64` two's-complement cast — an input `v` with `2^63 ≤ v < 2^64` is
stored (and returned) as the negative value `v - 2^64`, while `v < 2^63` is
stored unchanged; the appended row is exactly the returned one. -/
theorem insert_casts_u64_as_i64 (db : DbState) (u : NewAccountUpdate) (t : Nat)
    (hs : u.slot < 2 ^ 64) (hl : u.lamports < 2 ^ 64) :
    (2 ^ 63 ≤ u.slot →
      ((insert_account_update db u t).2.slot = (u.slot : Int) - 2 ^ 64 ∧
        (insert_account_update db u t).2.slot < 0)) ∧
    (u.slot < 2 ^ 63 →
      (insert_account_update db u t).2.slot = (u.slot : Int)) ∧
    (2 ^ 63 ≤ u.lamports →
      ((insert_account_update db u t).2.lamports = (u.lamports : Int) - 2 ^ 64 ∧
        (insert_account_update db u t).2.lamports < 0)) ∧
    (u.lamports < 2 ^ 63 →
      (insert_account_update db u t).2.lamports = (u.lamports : Int)) ∧
    (insert_account_update db u t).1.rows
      = db.rows ++ [(insert_account_update db u t).2] := by
  refine ⟨?_, ?_, ?_, ?_, rfl⟩
  · intro h
    have hnot : ¬ u.slot < 2 ^ 63 := not_lt.mpr h
    have hcast : (insert_account_update db u t).2.slot = (u.slot : Int) - 2 ^ 64 := by
      simp only [insert_account_update, u64ToI64, if_neg hnot]
    refine ⟨hcast, ?_⟩
    have h2 : (u.slot : Int) < 2 ^ 64 := by exact_mod_cast hs
    omega
  · intro h
    simp only [insert_account_update, u64ToI64, if_pos h]
  · intro h
    have hnot : ¬ u.lamports < 2 ^ 63 := not_lt.mpr h
    have hcast : (insert_account_update db u t).2.lamports
        = (u.lamports : Int) - 2 ^ 64 := by
      simp only [insert_account_update, u64ToI64, if_neg hnot]
    refine ⟨hcast, ?_⟩
    have h2 : (u.lamports : Int) < 2 ^ 64 := by exact_mod_cast hl
    omega
  · intro h
    simp only [insert_account_update, u64ToI64, if_pos h]

/-- Witness for the `as i64` cast theorem at `slot = 2^63`,
`lamports = 2^64 - 1`: the stored values are the negative reinterpretations
`-(2^63)` and `-1`. -/
theorem insert_casts_u64_as_i64_witness :
    ((insert_account_update { rows := [], nextId := 1 }
        { pubkey := "P", slot := 2 ^ 63, account_type := "Pool", owner := "O",
          lamports := 2 ^ 64 - 1, data_json := "null" } 0).2.slot
        = ((2 ^ 63 : Nat) : Int) - 2 ^ 64 ∧
      (insert_account_update { rows := [], nextId := 1 }
        { pubkey := "P", slot := 2 ^ 63, account_type := "Pool", owner := "O",
          lamports := 2 ^ 64 - 1, data_json := "null" } 0).2.slot < 0) ∧
    ((insert_account_update { rows := [], nextId := 1 }
        { pubkey := "P", slot := 2 ^ 63, account_type := "Pool", owner := "O",
          lamports := 2 ^ 64 - 1, data_json := "null" } 0).2.lamports
        = ((2 ^ 64 - 1 : Nat) : Int) - 2 ^ 64 ∧
      (insert_account_update { rows := [], nextId := 1 }
        { pubkey := "P", slot := 2 ^ 63, account_type := "Pool", owner := "O",
          lamports := 2 ^ 64 - 1, data_json := "null" } 0).2.lamports < 0) :=
  ⟨(insert_casts_u64_as_i64 { rows := [], nextId := 1 }
      { pubkey := "P", slot := 2 ^ 63, account_type := "Pool", owner := "O",
        lamports := 2 ^ 64 - 1, data_json := "null" } 0
      (by norm_num) (by norm_num)).1 (by norm_num),
   ((insert_casts_u64_as_i64 { rows := [], nextId := 1 }
      { pubkey := "P", slot := 2 ^ 63, account_type := "Pool", owner := "O",
        lamports := 2 ^ 64 - 1, data_json := "null" } 0
      (by norm_num) (by norm_num)).2.2.1 (by norm_num))⟩

/-- A sample ingestion world in which every gateway is healthy. -/
def ingestWorld0 : IngestWorld :=
  { db := { rows := [], nextId := 1 }
    dbInsertFails := false
    cache := { entries := [], getFails := false, setFails := false }
    server := { clients := [], subscriptions := [] }
    now := 0 }

/-- Witness for the pipeline-isolation theorem on a healthy world: the
insert succeeds, so the cache write and the broadcast both run. -/
theorem process_failure_isolation_witness :
    (process ingestWorld0 { pubkey := "P1", slot := 10 }
        (MeteoraDammV2Account.Pool "d") { owner := "O", lamports := 500 }).2 =
      { insertOk := true, cacheSetCalled := true, broadcastCalled := true } :=
  (process_failure_isolation ingestWorld0 { pubkey := "P1", slot := 10 }
    (MeteoraDammV2Account.Pool "d") { owner := "O", lamports := 500 }).2 rfl

/-- C4: `get_latest_account_state` returns, for any key with at least one
persisted row, a persisted row for that key whose `slot` is maximal among
that key's rows (`ORDER BY slot DESC LIMIT 1`). -/
theorem get_latest_is_max_slot (db : DbState) (k : String)
    (h : ∃ r ∈ db.rows, r.pubkey = k) :
    ∃ r, get_latest_account_state db k = some r ∧ r ∈ db.rows ∧
      r.pubkey = k ∧ ∀ x ∈ db.rows, x.pubkey = k → x.slot ≤ r.slot := by
  obtain ⟨r0, hr0, hp0⟩ := h
  have hmem : r0 ∈ db.rows.filter (fun r => r.pubkey = k) :=
    List.mem_filter.mpr ⟨hr0, by simp [hp0]⟩
  have hne : db.rows.filter (fun r => r.pubkey = k) ≠ [] :=
    List.ne_nil_of_mem hmem
  cases hm : maxBySlot (db.rows.filter (fun r => r.pubkey = k)) with
  | none => exact absurd (maxBySlot_eq_none.mp hm) hne
  | some r =>
    have hrmem := maxBySlot_mem hm
    have hrf := List.mem_filter.mp hrmem
    refine ⟨r, hm, hrf.1, by simpa using hrf.2, ?_⟩
    intro x hx hxk
    exact maxBySlot_ge hm x (List.mem_filter.mpr ⟨hx, by simp [hxk]⟩)

/-- The store after persisting a slot-10 update and then a slot-11 update
for key `"P1"`. -/
def dbTwoSlots : DbState :=
  (insert_account_update
    (insert_account_update { rows := [], nextId := 1 }
      { pubkey := "P1", slot := 10, account_type := "Pool", owner := "O",
        lamports := 500, data_json := "null" } 0).1
    { pubkey := "P1", slot := 11, account_type := "Pool", owner := "O",
      lamports := 600, data_json := "null" } 1).1

/-- Witness for the latest-by-slot theorem: on the store holding slot-10 and
slot-11 rows for `"P1"`, the returned row exists and is maximal — and it is
the slot-11 row, never the slot-10 one. -/
theorem get_latest_is_max_slot_witness :
    (∃ r, get_latest_account_state dbTwoSlots "P1" = some r ∧
        r ∈ dbTwoSlots.rows ∧ r.pubkey = "P1" ∧
        ∀ x ∈ dbTwoSlots.rows, x.pubkey = "P1" → x.slot ≤ r.slot) ∧
    (get_latest_account_state dbTwoSlots "P1").map AccountUpdate.slot = some 11 :=
  ⟨get_latest_is_max_slot dbTwoSlots "P1" (by decide), by decide⟩

/-- C3: the cache-aside resolver. A cache hit is returned with source
`"cache"` and no state change; on a cache miss or cache error, a store hit
is written back to the cache (the cache state moves to the write-back's
result, whether or not that write failed) and returned with source
`"database"`; when neither tier yields a row the resolver returns `none`
and changes nothing. -/
theorem get_account_data_cache_aside (w : ResolverWorld) (k : String) :
    (∀ a, cache_get_account w.cache k = Except.ok (some a) →
      get_account_data w k = (some (a, "cache"), w)) ∧
    ((∀ a, cache_get_account w.cache k ≠ Except.ok (some a)) →
      (∀ a, db_get_latest w k = Except.ok (some a) →
        get_account_data w k =
          (some (a, "database"),
            { w with cache := (cache_set_account w.cache k a).2 })) ∧
      ((∀ a, db_get_latest w k ≠ Except.ok (some a)) →
        get_account_data w k = (none, w))) := by
  constructor
  · intro a ha
    simp [get_account_data, ha]
  · intro hmiss
    constructor
    · intro a ha
      cases hc : cache_get_account w.cache k with
      | ok v =>
        cases v with
        | none => simp [get_account_data, hc, ha]
        | some b => exact absurd hc (hmiss b)
      | error e => simp [get_account_data, hc, ha]
    · intro hd
      cases hc : cache_get_account w.cache k with
      | ok v =>
        cases v with
        | none =>
          cases hdb : db_get_latest w k with
          | ok dv =>
            cases dv with
            | none => simp [get_account_data, hc, hdb]
            | some b => exact absurd hdb (hd b)
          | error e => simp [get_account_data, hc, hdb]
        | some b => exact absurd hc (hmiss b)
      | error e =>
        cases hdb : db_get_latest w k with
        | ok dv =>
          cases dv with
          | none => simp [get_account_data, hc, hdb]
          | some b => exact absurd hdb (hd b)
        | error e2 => simp [get_account_data, hc, hdb]

/-- A sample persisted row. -/
def sampleAccount : AccountUpdate :=
  { id := 1, pubkey := "P1", slot := 10, account_type := "Pool", owner := "O",
    lamports := 500, data_json := "null", created_at := 0 }

/-- A resolver world whose cache holds `sampleAccount` under `"P1"`. -/
def resolverWorldCacheHit : ResolverWorld :=
  { cache := { entries := [("P1", sampleAccount)], getFails := false,
               setFails := false }
    db := { rows := [], nextId := 1 }
    dbReadFails := false }

/-- Witness for the cache-aside theorem: on a world whose cache holds the
row, the resolver answers from the cache without touching anything. -/
theorem get_account_data_cache_aside_witness :
    get_account_data resolverWorldCacheHit "P1"
      = (some (sampleAccount, "cache"), resolverWorldCacheHit) :=
  (get_account_data_cache_aside resolverWorldCacheHit "P1").1 sampleAccount rfl

/-- C9: for a key never inserted — absent from the cache and from every
persisted row — the resolver returns `none` and the whole world (cache
entries and store alike) is returned unchanged: the miss has no side
effect. -/
theorem get_account_data_miss_no_mutation (w : ResolverWorld) (k : String)
    (hc : assocLookup w.cache.entries k = none)
    (hd : ∀ r ∈ w.db.rows, r.pubkey ≠ k) :
    get_account_data w k = (none, w) := by
  have hfilter : w.db.rows.filter (fun r => r.pubkey = k) = [] := by
    rw [List.filter_eq_nil_iff]
    intro r hr
    simp [hd r hr]
  have hlatest : get_latest_account_state w.db k = none := by
    rw [get_latest_account_state, hfilter]
    rfl
  cases hgf : w.cache.getFails with
  | true =>
    cases hrf : w.dbReadFails with
    | true => simp [get_account_data, cache_get_account, db_get_latest, hgf, hrf]
    | false =>
      simp [get_account_data, cache_get_account, db_get_latest, hgf, hrf, hlatest]
  | false =>
    cases hrf : w.dbReadFails with
    | true =>
      simp [get_account_data, cache_get_account, db_get_latest, hgf, hrf, hc]
    | false =>
      simp [get_account_data, cache_get_account, db_get_latest, hgf, hrf, hc,
        hlatest]

/-- An empty resolver world. -/
def resolverWorldEmpty : ResolverWorld :=
  { cache := { entries := [], getFails := false, setFails := false }
    db := { rows := [], nextId := 1 }
    dbReadFails := false }

/-- Witness for the no-mutation-on-miss theorem on the empty world. -/
theorem get_account_data_miss_no_mutation_witness :
    get_account_data resolverWorldEmpty "K" = (none, resolverWorldEmpty) :=
  get_account_data_miss_no_mutation resolverWorldEmpty "K" (by decide)
    (by intro r hr; simp [resolverWorldEmpty] at hr)

/-! ### Connection-registry and broadcast lemmas -/

theorem assocLookup_updateClient_self (cs : Clients) (c : ClientId)
    (ch : Channel) :
    assocLookup (updateClient cs c ch) c
      = (assocLookup cs c).map (fun _ => ch) := by
  induction cs with
  | nil => rfl
  | cons p rest ih =>
    obtain ⟨a, b⟩ := p
    by_cases hp : a = c
    · subst hp
      simp [updateClient, assocLookup]
    · simp only [updateClient, if_neg hp, assocLookup, if_neg hp]
      exact ih

theorem assocLookup_updateClient_ne (cs : Clients) (c j : ClientId)
    (ch : Channel) (h : j ≠ c) :
    assocLookup (updateClient cs c ch) j = assocLookup cs j := by
  induction cs with
  | nil => rfl
  | cons p rest ih =>
    obtain ⟨a, b⟩ := p
    by_cases hp : a = c
    · have hpj : ¬ a = j := fun he => h (he.symm.trans hp)
      simp only [updateClient, if_pos hp, assocLookup]
      rw [if_neg hpj, if_neg hpj]
      exact ih
    · simp only [updateClient, if_neg hp, assocLookup]
      by_cases hpj : a = j
      · rw [if_pos hpj, if_pos hpj]
      · rw [if_neg hpj, if_neg hpj]
        exact ih

/-- Appending zero copies of an envelope is invisible: the delivery
transform at multiplicity zero is the identity on an optional channel. -/
theorem map_deliver_zero (o : Option Channel) (msg : AccountUpdateMessage) :
    o.map (fun ch =>
      if ch.receiverAlive then
        { ch with queue := ch.queue ++ List.replicate 0 msg }
      else ch) = o := by
  cases o with
  | none => rfl
  | some ch =>
    obtain ⟨q, alive⟩ := ch
    cases alive <;> simp

theorem broadcastLoop_lookup (ids : List ClientId) (cs : Clients)
    (msg : AccountUpdateMessage) (i : ClientId) :
    assocLookup (broadcastLoop cs msg ids) i
      = (assocLookup cs i).map (fun ch =>
          if ch.receiverAlive then
            { ch with queue := ch.queue ++ List.replicate (ids.count i) msg }
          else ch) := by
  induction ids generalizing cs with
  | nil =>
    rw [List.count_nil]
    exact (map_deliver_zero (assocLookup cs i) msg).symm
  | cons c rest ih =>
    simp only [broadcastLoop]
    cases hc : assocLookup cs c with
    | none =>
      rw [ih cs]
      by_cases hic : i = c
      · subst hic
        rw [hc]
        rfl
      · have hcount : (c :: rest).count i = rest.count i := by
          simp [List.count_cons, Ne.symm hic]
        rw [hcount]
    | some ch =>
      by_cases hic : i = c
      · subst hic
        rw [ih]
        rw [assocLookup_updateClient_self, hc]
        simp only [Option.map_some']
        have hcount : (i :: rest).count i = rest.count i + 1 := by
          simp [List.count_cons]
        rw [hcount]
        by_cases ha : ch.receiverAlive
        · simp only [channelSend, if_pos ha]
          simp [ha, List.replicate_succ, List.append_assoc]
        · simp only [channelSend, if_neg ha]
      · rw [ih]
        rw [assocLookup_updateClient_ne _ _ _ _ hic]
        have hcount : (c :: rest).count i = rest.count i := by
          simp [List.count_cons, Ne.symm hic]
        rw [hcount]

/-- The realtime envelope `broadcast_account_update` builds. -/
def realtimeMsg (pubkey : String) (account : AccountUpdate) :
    AccountUpdateMessage :=
  { pubkey := pubkey, account := account, source := "realtime" }

theorem broadcast_lookup (st : ServerState) (k : String) (u : AccountUpdate)
    (i : ClientId) :
    assocLookup (broadcast_account_update st k u).clients i
      = (assocLookup st.clients i).map (fun ch =>
          if ch.receiverAlive then
            { ch with
              queue := ch.queue ++
                List.replicate ((subscribersOf st.subscriptions k).count i)
                  (realtimeMsg k u) }
          else ch) := by
  simp only [broadcast_account_update]
  cases hs : assocLookup st.subscriptions k with
  | none =>
    have hsub : subscribersOf st.subscriptions k = [] := by
      simp [subscribersOf, hs]
    rw [hsub, List.count_nil]
    exact (map_deliver_zero (assocLookup st.clients i) (realtimeMsg k u)).symm
  | some ids =>
    have hsub : subscribersOf st.subscriptions k = ids := by
      simp [subscribersOf, hs]
    rw [hsub]
    exact broadcastLoop_lookup ids st.clients (realtimeMsg k u) i

theorem broadcast_subscriptions_eq (st : ServerState) (k : String)
    (u : AccountUpdate) :
    (broadcast_account_update st k u).subscriptions = st.subscriptions := by
  simp only [broadcast_account_update]
  cases assocLookup st.subscriptions k <;> rfl

theorem broadcast_lookup_of_not_subscribed (st : ServerState) (k : String)
    (u : AccountUpdate) (c : ClientId)
    (h : c ∉ subscribersOf st.subscriptions k) :
    assocLookup (broadcast_account_update st k u).clients c
      = assocLookup st.clients c := by
  rw [broadcast_lookup]
  rw [List.count_eq_zero.mpr h]
  exact map_deliver_zero (assocLookup st.clients c) (realtimeMsg k u)

theorem broadcastMany_lookup_of_not_subscribed (us : List AccountUpdate)
    (st : ServerState) (k : String) (c : ClientId)
    (h : c ∉ subscribersOf st.subscriptions k) :
    assocLookup (broadcastMany st k us).clients c = assocLookup st.clients c := by
  induction us generalizing st with
  | nil => rfl
  | cons u rest ih =>
    simp only [broadcastMany]
    rw [ih (broadcast_account_update st k u)
      (by rw [broadcast_subscriptions_eq]; exact h)]
    exact broadcast_lookup_of_not_subscribed st k u c h

/-! ### Unsubscribe lemmas -/

theorem unsubscribe_not_subscribed (subs : Subs) (k : String) (c : ClientId)
    (hnd : (subs.map Prod.fst).Nodup) :
    c ∉ subscribersOf (unsubscribe_index subs k c) k := by
  induction subs with
  | nil => simp [unsubscribe_index, subscribersOf, assocLookup]
  | cons p rest ih =>
    obtain ⟨k', l⟩ := p
    simp only [List.map_cons, List.nodup_cons] at hnd
    by_cases hk : k' = k
    · simp only [unsubscribe_index, if_pos hk]
      by_cases he : (l.filter (fun id => id ≠ c)).isEmpty
      · simp only [if_pos he]
        have : assocLookup rest k = none := by
          apply assocLookup_eq_none_of_not_mem
          rw [← hk]
          exact hnd.1
        simp [subscribersOf, this]
      · simp only [if_neg he, subscribersOf, assocLookup, if_pos hk]
        intro hmem
        have := (List.mem_filter.mp hmem).2
        simp at this
    · simp only [unsubscribe_index, if_neg hk, subscribersOf, assocLookup,
        if_neg hk]
      exact ih hnd.2

theorem unsubscribe_nonmember_noop (subs : Subs) (k : String) (c : ClientId)
    (hnd : (subs.map Prod.fst).Nodup)
    (h : c ∉ subscribersOf subs k) :
    subscribersOf (unsubscribe_index subs k c) k = subscribersOf subs k := by
  induction subs with
  | nil => rfl
  | cons p rest ih =>
    obtain ⟨k', l⟩ := p
    simp only [List.map_cons, List.nodup_cons] at hnd
    by_cases hk : k' = k
    · have hl : subscribersOf ((k', l) :: rest) k = l := by
        simp [subscribersOf, assocLookup, hk]
      rw [hl] at h
      have hfilter : l.filter (fun id => id ≠ c) = l := by
        rw [List.filter_eq_self]
        intro a ha
        simp
        exact fun he => h (he ▸ ha)
      simp only [unsubscribe_index, if_pos hk, hfilter]
      by_cases he : l.isEmpty
      · simp only [if_pos he]
        have hrest : assocLookup rest k = none := by
          apply assocLookup_eq_none_of_not_mem
          rw [← hk]
          exact hnd.1
        rw [hl]
        rw [List.isEmpty_iff] at he
        simp [subscribersOf, hrest, he]
      · simp only [if_neg he, hl, subscribersOf, assocLookup, if_pos hk]
    · have hl : subscribersOf ((k', l) :: rest) k = subscribersOf rest k := by
        simp [subscribersOf, assocLookup, hk]
      rw [hl] at h ⊢
      simp only [unsubscribe_index, if_neg hk, subscribersOf, assocLookup,
        if_neg hk]
      exact ih hnd.2 h

theorem unsubscribe_prunes_empty (subs : Subs) (k : String) (c : ClientId)
    (hnd : (subs.map Prod.fst).Nodup) :
    ∀ l, assocLookup (unsubscribe_index subs k c) k = some l → l ≠ [] := by
  induction subs with
  | nil => simp [unsubscribe_index, assocLookup]
  | cons p rest ih =>
    obtain ⟨k', l0⟩ := p
    simp only [List.map_cons, List.nodup_cons] at hnd
    intro l hl
    by_cases hk : k' = k
    · simp only [unsubscribe_index, if_pos hk] at hl
      by_cases he : (l0.filter (fun id => id ≠ c)).isEmpty
      · rw [if_pos he] at hl
        have : assocLookup rest k = none := by
          apply assocLookup_eq_none_of_not_mem
          rw [← hk]
          exact hnd.1
        rw [this] at hl
        exact absurd hl (by simp)
      · rw [if_neg he] at hl
        simp only [assocLookup, if_pos hk] at hl
        rw [← Option.some_inj.mp hl]
        intro hcontra
        rw [hcontra] at he
        simp at he
    · simp only [unsubscribe_index, if_neg hk, assocLookup, if_neg hk] at hl
      exact ih hnd.2 l hl

/-! ### Cleanup lemmas -/

theorem removeSession_mem {subs : Subs} {c : ClientId}
    {p : String × List ClientId} (h : p ∈ removeSession subs c) :
    c ∉ p.2 ∧ p.2 ≠ [] := by
  unfold removeSession at h
  obtain ⟨hmem, hne⟩ := List.mem_filter.mp h
  obtain ⟨q, hq, hfq⟩ := List.mem_map.mp hmem
  constructor
  · rw [← hfq]
    intro hc
    have := (List.mem_filter.mp hc).2
    simp at this
  · intro he
    rw [he] at hne
    simp at hne

theorem removeSession_not_subscribed (subs : Subs) (c : ClientId) (k : String) :
    c ∉ subscribersOf (removeSession subs c) k := by
  cases hl : assocLookup (removeSession subs c) k with
  | none => simp [subscribersOf, hl]
  | some l =>
    have hmem := assocLookup_mem hl
    have hp := removeSession_mem hmem
    simp only [subscribersOf, hl]
    exact hp.1

theorem removeSession_no_empty (subs : Subs) (c : ClientId) (k : String) :
    ∀ l, assocLookup (removeSession subs c) k = some l → l ≠ [] := by
  intro l hl
  exact (removeSession_mem (assocLookup_mem hl)).2

theorem removeSession_idem (subs : Subs) (c : ClientId) :
    removeSession (removeSession subs c) c = removeSession subs c := by
  have hmap : (removeSession subs c).map
      (fun p => (p.1, p.2.filter (fun id => id ≠ c)))
      = removeSession subs c := by
    conv_rhs => rw [← List.map_id (removeSession subs c)]
    apply List.map_congr_left
    intro p hp
    have hfilter : p.2.filter (fun id => id ≠ c) = p.2 := by
      rw [List.filter_eq_self]
      intro a ha
      simp
      exact fun he => (removeSession_mem hp).1 (he ▸ ha)
    rw [hfilter]
    rfl
  show ((removeSession subs c).map
      (fun p => (p.1, p.2.filter (fun id => id ≠ c)))).filter
      (fun p => ¬ p.2.isEmpty) = removeSession subs c
  rw [hmap]
  rw [List.filter_eq_self]
  intro p hp
  simpa [List.isEmpty_iff] using (removeSession_mem hp).2

theorem assocLookup_filter_out (cs : Clients) (c : ClientId) :
    assocLookup (cs.filter (fun p => p.1 ≠ c)) c = none := by
  induction cs with
  | nil => rfl
  | cons p rest ih =>
    by_cases hp : p.1 = c
    · simp only [List.filter_cons]
      rw [if_neg (by simp [hp])]
      exact ih
    · simp only [List.filter_cons]
      rw [if_pos (by simp [hp])]
      simp only [assocLookup]
      rw [if_neg hp]
      exact ih

/-- C5: after `unsubscribe(key, s)` the session is no longer in the key's
subscriber vector, so any sequence of subsequent `publish(key, ...)` calls
leaves `s`'s channel untouched; unsubscribing a non-member leaves the key's
subscriber vector as it was; and the key's entry, if still present after the
unsubscribe, is non-empty (an emptied vector is pruned from the index).
The hypothesis is the `HashMap` invariant that index keys are unique. -/
theorem unsubscribe_stops_delivery (st : ServerState) (k : String)
    (c : ClientId) (us : List AccountUpdate)
    (hnd : (st.subscriptions.map Prod.fst).Nodup) :
    (c ∉ subscribersOf (unsubscribe_index st.subscriptions k c) k) ∧
    (assocLookup
        (broadcastMany
          { st with subscriptions := unsubscribe_index st.subscriptions k c }
          k us).clients c
      = assocLookup st.clients c) ∧
    (c ∉ subscribersOf st.subscriptions k →
      subscribersOf (unsubscribe_index st.subscriptions k c) k
        = subscribersOf st.subscriptions k) ∧
    (∀ l, assocLookup (unsubscribe_index st.subscriptions k c) k = some l →
      l ≠ []) :=
  ⟨unsubscribe_not_subscribed st.subscriptions k c hnd,
    broadcastMany_lookup_of_not_subscribed us _ k c
      (unsubscribe_not_subscribed st.subscriptions k c hnd),
    unsubscribe_nonmember_noop st.subscriptions k c hnd,
    unsubscribe_prunes_empty st.subscriptions k c hnd⟩

/-- A two-client server in which clients 5 and 7 are subscribed to `"P"`. -/
def serverTwoSubs : ServerState :=
  { clients := [(5, { queue := [], receiverAlive := true }),
                (7, { queue := [], receiverAlive := true })]
    subscriptions := [("P", [5, 7])] }

/-- Witness for the unsubscribe theorem: after client 5 unsubscribes from
`"P"` on the concrete two-client server, broadcasting an update for `"P"`
leaves 5's channel exactly as it was. -/
theorem unsubscribe_stops_delivery_witness :
    assocLookup
        (broadcastMany
          { serverTwoSubs with
            subscriptions := unsubscribe_index serverTwoSubs.subscriptions "P" 5 }
          "P" [sampleAccount]).clients 5
      = assocLookup serverTwoSubs.clients 5 :=
  (unsubscribe_stops_delivery serverTwoSubs "P" 5 [sampleAccount]
    (by decide)).2.1

/-- C6: `cleanup_client` removes the session from the connection registry
and from every key's subscriber vector, prunes emptied vectors, is
idempotent (a second run is the identity on the cleaned state), and a
subsequent broadcast for any key still finds no channel for the session
(and, being a total function, cannot error). -/
theorem cleanup_client_spec (st : ServerState) (c : ClientId) :
    (assocLookup (cleanup_client st c).clients c = none) ∧
    (∀ k, c ∉ subscribersOf (cleanup_client st c).subscriptions k) ∧
    (∀ k l, assocLookup (cleanup_client st c).subscriptions k = some l →
      l ≠ []) ∧
    (cleanup_client (cleanup_client st c) c = cleanup_client st c) ∧
    (∀ k u, assocLookup
        (broadcast_account_update (cleanup_client st c) k u).clients c
      = none) := by
  refine ⟨assocLookup_filter_out st.clients c,
    fun k => removeSession_not_subscribed st.subscriptions c k,
    fun k => removeSession_no_empty st.subscriptions c k, ?_, ?_⟩
  · simp only [cleanup_client]
    rw [removeSession_idem, List.filter_filter]
    simp only [Bool.and_self]
  · intro k u
    rw [broadcast_lookup]
    rw [show (cleanup_client st c).clients = st.clients.filter
        (fun p => p.1 ≠ c) from rfl]
    rw [assocLookup_filter_out]
    rfl

/-- Witness for the cleanup theorem: cleaning client 5 off the concrete
two-client server and then broadcasting for `"P"` finds no channel for 5. -/
theorem cleanup_client_spec_witness :
    assocLookup
        (broadcast_account_update (cleanup_client serverTwoSubs 5) "P"
          sampleAccount).clients 5
      = none :=
  (cleanup_client_spec serverTwoSubs 5).2.2.2.2 "P" sampleAccount

/-- C7: full characterization of `broadcast_account_update` as seen from any
client id `i`: an id with no channel stays without one; a registered channel
whose receiver is gone is left untouched (the failed send is skipped); a
live registered channel receives, appended FIFO, one
`{pubkey, account, source := "realtime"}` envelope per occurrence of `i` in
the key's subscriber vector (zero when unsubscribed). Delivery to `i`
depends only on `i`'s own entry, never on other subscribers' fates, and the
function is total — it returns no error and performs no retries. -/
theorem broadcast_per_subscriber (st : ServerState) (k : String)
    (u : AccountUpdate) (i : ClientId) :
    assocLookup (broadcast_account_update st k u).clients i
      = (assocLookup st.clients i).map (fun ch =>
          if ch.receiverAlive then
            { ch with
              queue := ch.queue ++
                List.replicate ((subscribersOf st.subscriptions k).count i)
                  { pubkey := k, account := u, source := "realtime" } }
          else ch) :=
  broadcast_lookup st k u i

theorem handle_subscription_subscribe_eq (st : SessionState) (c : ClientId)
    (k : String) :
    handle_subscription st c { action := "subscribe", pubkey := k } =
      (match (get_account_data st.resolver k).1 with
       | some found =>
         { server :=
             { clients :=
                 (match assocLookup st.server.clients c with
                  | some tx => updateClient st.server.clients c
                      (channelSend tx
                        { pubkey := k, account := found.1,
                          source := found.2 }).1
                  | none => st.server.clients)
               subscriptions := subscribe_index st.server.subscriptions k c }
           resolver := (get_account_data st.resolver k).2 }
       | none =>
         { server :=
             { st.server with
               subscriptions := subscribe_index st.server.subscriptions k c }
           resolver := (get_account_data st.resolver k).2 }) := rfl

/-- C8: handling `{action := "subscribe", pubkey := k}` for session `c`
subscribes `c` to `k` in every case; clients other than `c` see no change to
their channels; when the resolver finds a state `(a, src)`, exactly one
envelope `{k, a, src}` is appended — to `c`'s own channel only (and only if
that channel is registered with a live receiver); when the resolver finds
nothing, no channel in the registry changes at all. -/
theorem subscribe_snapshot (st : SessionState) (c : ClientId) (k : String) :
    (c ∈ subscribersOf
        (handle_subscription st c
          { action := "subscribe", pubkey := k }).server.subscriptions k) ∧
    (∀ j, j ≠ c →
      assocLookup (handle_subscription st c
          { action := "subscribe", pubkey := k }).server.clients j
        = assocLookup st.server.clients j) ∧
    (∀ a src, (get_account_data st.resolver k).1 = some (a, src) →
      assocLookup (handle_subscription st c
          { action := "subscribe", pubkey := k }).server.clients c
        = (assocLookup st.server.clients c).map (fun ch =>
            if ch.receiverAlive then
              { ch with queue := ch.queue ++
                  [{ pubkey := k, account := a, source := src }] }
            else ch)) ∧
    ((get_account_data st.resolver k).1 = none →
      (handle_subscription st c
          { action := "subscribe", pubkey := k }).server.clients
        = st.server.clients) := by
  rw [handle_subscription_subscribe_eq]
  cases hres : (get_account_data st.resolver k).1 with
  | none =>
    refine ⟨?_, fun j _ => rfl, ?_, fun _ => rfl⟩
    · rw [subscribersOf_subscribe_index]
      simp
    · intro a src hsome
      exact absurd hsome (by simp)
  | some found =>
    refine ⟨?_, ?_, ?_, ?_⟩
    · rw [subscribersOf_subscribe_index]
      simp
    · intro j hj
      cases hl : assocLookup st.server.clients c with
      | none => simp [hl]
      | some tx =>
        simp only [hl]
        exact assocLookup_updateClient_ne _ _ _ _ hj
    · intro a src hsome
      have hfound : found = (a, src) := Option.some_inj.mp hsome
      subst hfound
      cases hl : assocLookup st.server.clients c with
      | none => simp [hl]
      | some tx =>
        simp only [hl]
        rw [assocLookup_updateClient_self, hl]
        simp only [Option.map_some']
        by_cases ha : tx.receiverAlive
        · simp only [channelSend, if_pos ha, if_pos ha]
        · simp only [channelSend, if_neg ha, if_neg ha]
    · intro hnone
      exact absurd hnone (by simp)

/-- A session-layer state in which client 5 is connected with a live
channel, nothing is yet subscribed, and the resolver world is the one whose
cache holds `sampleAccount` under `"P1"`. -/
def sessionState5 : SessionState :=
  { server := { clients := [(5, { queue := [], receiverAlive := true })]
                subscriptions := [] }
    resolver := resolverWorldCacheHit }

/-- Witness for the subscribe-snapshot theorem: on the concrete session
state, the resolver hits the cache, so client 5's channel receives exactly
the one snapshot envelope `{`"P1"`, sampleAccount, "cache"}`. -/
theorem subscribe_snapshot_witness :
    assocLookup (handle_subscription sessionState5 5
        { action := "subscribe", pubkey := "P1" }).server.clients 5
      = (assocLookup sessionState5.server.clients 5).map (fun ch =>
          if ch.receiverAlive then
            { ch with queue := ch.queue ++
                [{ pubkey := "P1", account := sampleAccount,
                   source := "cache" }] }
          else ch) :=
  (subscribe_snapshot sessionState5 5 "P1").2.2.1 sampleAccount "cache" rfl

end AccountSocket
